import Mathlib

/-!
Verification of the core functions of the MOVIE_COUNTDOWN browser extension.

The JavaScript sources are embedded shallowly:

* Millisecond timestamps (results of Date.parse / Date.now) are modelled as ℤ.
* A field holding an ISO date string that may be absent or unparsable is
  modelled as Option (Option ℤ): none is an absent or falsy value, some none
  is a string on which Date.parse returns NaN, and some (some t) is a string
  parsing to the timestamp t.
* Fractional JavaScript number arithmetic (the progress computation and the
  rate-limiter interval 1000/3) is modelled exactly over ℚ, with Math.round x
  modelled as the floor of x + 1/2.
* Array.prototype.sort with a consistent comparator is modelled as a stable
  insertion sort ordered by the predicate (comparator a b <= 0); for a
  consistent comparator every stable comparison sort produces this result.
* localeCompare is modelled as code-point lexicographic comparison of the
  two strings' character lists.
* Network effects are modelled by passing the outcome of the single HTTP GET
  performed by an operation as an explicit argument: the fetch either fails
  (a rejected promise), or yields a response with an ok flag, a status code,
  and a body that parses to a JSON value or fails to parse.  A JavaScript
  function that can reject is modelled with Except Unit; a function that
  cannot reject is modelled as a total function.
-/

/-! ## A stable sort, modelling Array.prototype.sort (src/unnamed/part_000 line 1824, src/popup.js line 859) -/

/-- Stable insertion of x into l: x is placed immediately before the first
element y with le x y (i.e. comparator x y <= 0), hence after every earlier
element tied with x. -/
def insertStable (le : α → α → Bool) (x : α) : List α → List α
  | [] => [x]
  | y :: ys => if le x y then x :: y :: ys else y :: insertStable le x ys

/-- Stable sort by the Boolean predicate le, modelling the result of
Array.prototype.sort with a consistent comparator. -/
def jsSort (le : α → α → Bool) : List α → List α
  | [] => []
  | x :: xs => insertStable le x (jsSort le xs)

/-! ## Data model -/

/-- The nextEpisode record stored on a tracked show, as produced by
computeNextEpisode (src/unnamed/part_001 lines 55-59): season, number, and an
airstamp string that is known to parse (it passed the NaN check), modelled by
its parsed timestamp. -/
structure NextEpisode where
  season : ℤ
  number : ℤ
  airstamp : ℤ
deriving DecidableEq

/-- A raw episode object from the TV-catalog episode feed, restricted to the
fields the program reads.  airstamp: none models an absent or empty string,
some none a string Date.parse rejects, some (some t) a string parsing to t. -/
structure Episode where
  season : ℤ
  number : ℤ
  airstamp : Option (Option ℤ)
deriving DecidableEq

/-- A tracked show, restricted to the fields the verified operations read or
write.  priority false also models an absent priority flag (both are falsy). -/
structure Show where
  id : ℤ
  name : String := ""
  priority : Bool := false
  watched : Bool := false
  watchedAt : Option ℤ := none
  watchLink : Option String := none
  nextEpisode : Option NextEpisode := none
  allEpisodesLastFetchedAt : Option (Option ℤ) := none
deriving DecidableEq

/-! ## src/unnamed/part_001 (the TV-catalog adapter module) -/

/-- 24 * 60 * 60 * 1000, the ONE_DAY_MS constant of src/unnamed/part_001. -/
def ONE_DAY_MS : ℤ := 24 * 60 * 60 * 1000

/-- isFetchStale (src/unnamed/part_001 lines 64-69): true when the stored
timestamp is absent, fails to parse, or lies more than ONE_DAY_MS before now.
The call Date.now() inside the function is passed explicitly as now. -/
def isFetchStale (lastFetchedAtIso : Option (Option ℤ)) (now : ℤ) : Bool :=
  match lastFetchedAtIso with
  | none => true
  | some none => true
  | some (some last) => decide (now - last > ONE_DAY_MS)

/-- The loop body state of computeNextEpisode (src/unnamed/part_001 lines
44-62): next holds the best candidate so far.  An episode with an absent or
unparsable airstamp is skipped; a parsable airstamp airTime is taken when it
is strictly in the future and strictly smaller than the current best. -/
def computeNextEpisodeAux (now : ℤ) : List Episode → Option NextEpisode → Option NextEpisode
  | [], next => next
  | ep :: rest, next =>
    match ep.airstamp with
    | none => computeNextEpisodeAux now rest next
    | some none => computeNextEpisodeAux now rest next
    | some (some airTime) =>
      if decide (airTime > now) && next.all (fun n => decide (airTime < n.airstamp)) then
        computeNextEpisodeAux now rest (some ⟨ep.season, ep.number, airTime⟩)
      else
        computeNextEpisodeAux now rest next

/-- computeNextEpisode (src/unnamed/part_001 lines 44-62).  The call
Date.now() at line 45 is passed explicitly as now. -/
def computeNextEpisode (episodes : List Episode) (now : ℤ) : Option NextEpisode :=
  computeNextEpisodeAux now episodes none

/-- Outcome of the single HTTP GET an adapter operation performs.  netFail is
a rejected fetch; resp carries the response ok flag, the status code, and the
parsed JSON body (none when the body is malformed, so that res.json()
rejects). -/
inductive FetchOutcome (J : Type) where
  | netFail : FetchOutcome J
  | resp (ok : Bool) (status : ℕ) (body : Option J) : FetchOutcome J

/-- The image object a TV-catalog search result may carry
(src/unnamed/part_001 lines 29-30). -/
structure RawImage where
  medium : Option String
  original : Option String

/-- A raw show object inside a TV-catalog search result.  The field name is
show in the source; Lean reserves that word, so the field is called show'. -/
structure RawShow where
  id : ℤ
  name : String
  genres : Option (List String)
  premiered : Option String
  status : Option String
  image : Option RawImage

/-- One item of the TV-catalog search payload; item.show may be absent. -/
structure SearchItem where
  show' : Option RawShow

/-- The normalized record searchShows builds per item
(src/unnamed/part_001 lines 21-31). -/
structure ShowSummary where
  id : ℤ
  name : String
  genres : List String
  premiered : Option String
  status : Option String
  image : Option String
deriving DecidableEq

/-- The per-item mapping of searchShows (src/unnamed/part_001 lines 21-31):
genres defaults to [] when not an array, premiered and status use || null,
and image resolves (show.image && (medium || original)) || null. -/
def mkShowSummary (sh : RawShow) : ShowSummary :=
  { id := sh.id
    name := sh.name
    genres := sh.genres.getD []
    premiered := sh.premiered
    status := sh.status
    image := sh.image.bind (fun im => im.medium.orElse (fun _ => im.original)) }

/-- searchShows (src/unnamed/part_001 lines 4-32).  An empty trimmed query
returns [] before any fetch; a rejected fetch propagates (nothing catches
it); a non-ok response returns []; a malformed body makes res.json() reject,
which also propagates; otherwise items without a show are dropped, the first
8 are kept, and each is normalized. -/
def searchShows (query : String) (outcome : FetchOutcome (List SearchItem)) :
    Except Unit (List ShowSummary) :=
  if query.trim = "" then .ok []
  else
    match outcome with
    | .netFail => .error ()
    | .resp ok _ body =>
      if !ok then .ok []
      else
        match body with
        | none => .error ()
        | some data => .ok ((((data.filterMap SearchItem.show')).take 8).map mkShowSummary)

/-- fetchEpisodes (src/unnamed/part_001 lines 35-42).  A rejected fetch
propagates; a non-ok response returns []; res.json() on a malformed body
rejects and propagates; otherwise the parsed episode list is returned. -/
def fetchEpisodes (outcome : FetchOutcome (List Episode)) : Except Unit (List Episode) :=
  match outcome with
  | .netFail => .error ()
  | .resp ok _ body =>
    if !ok then .ok []
    else
      match body with
      | none => .error ()
      | some episodes => .ok episodes

/-! ## src/backup_ui/background.js -/

/-- The loop body of refreshAllShows (src/backup_ui/background.js lines
26-52) for one show.  fetchEps gives the outcome of fetchEpisodes(show.id);
now stands for the Date.now()/new Date() calls of this pass.  A show that is
not stale is pushed unchanged.  A stale show is re-fetched: on success
nextEpisode and allEpisodesLastFetchedAt are replaced; on failure the caught
error leaves the spread copy of the previous record.  Either way watched and
watchedAt are reattached from the input record (lines 48-49). -/
def refreshShow (fetchEps : ℤ → Except Unit (List Episode)) (now : ℤ) (s : Show) : Show :=
  if isFetchStale s.allEpisodesLastFetchedAt now = false then s
  else
    match fetchEps s.id with
    | .error _ =>
      { s with watched := s.watched, watchedAt := s.watchedAt }
    | .ok episodes =>
      { s with
          nextEpisode := computeNextEpisode episodes now
          allEpisodesLastFetchedAt := some (some now)
          watched := s.watched
          watchedAt := s.watchedAt }

/-- refreshAllShows (src/backup_ui/background.js lines 19-55): the
sequential for-loop over the stored collection, pushing one updated record
per input record. -/
def refreshAllShows (fetchEps : ℤ → Except Unit (List Episode)) (now : ℤ) :
    List Show → List Show
  | [] => []
  | s :: rest => refreshShow fetchEps now s :: refreshAllShows fetchEps now rest

/-! ## processImport (src/unnamed/part_000 lines 193-229, src/popup.js lines 165-201) -/

/-- processImport with a pending import payload and the stored collection.
merge keeps the existing shows and appends the imported shows whose id is not
in the Set of existing ids; otherwise the imported list replaces the
collection. -/
def processImport (merge : Bool) (existingShows pendingShows : List Show) : List Show :=
  if merge then
    let existingIds := existingShows.map Show.id
    let newShows := pendingShows.filter (fun s => !(existingIds.contains s.id))
    existingShows ++ newShows
  else
    pendingShows

/-! ## sortShows -/

/-- Code-point lexicographic comparison of character lists, modelling
name.localeCompare: true exactly when the comparison is <= 0. -/
def charListLe : List Char → List Char → Bool
  | [], _ => true
  | _ :: _, [] => false
  | a :: as, b :: bs =>
    if a.toNat < b.toNat then true
    else if b.toNat < a.toNat then false
    else charListLe as bs

/-- a.name.localeCompare(b.name) <= 0 (src/unnamed/part_000 line 1827,
src/popup.js line 859). -/
def alphaLe (a b : Show) : Bool :=
  charListLe a.name.data b.name.data

/-- The sort key of the soonest branch: a.nextEpisode?.airstamp ? Date.parse
: Infinity, with none modelling Infinity. -/
def airKey (s : Show) : Option ℤ :=
  s.nextEpisode.map NextEpisode.airstamp

/-- ta - tb <= 0 for the soonest branch (src/unnamed/part_000 lines
1830-1832, src/popup.js lines 862-865).  Infinity - Infinity is NaN, which
SortCompare coerces to 0, so two absent keys compare equal. -/
def soonestLe (a b : Show) : Bool :=
  match airKey a, airKey b with
  | none, none => true
  | none, some _ => false
  | some _, none => true
  | some x, some y => decide (x ≤ y)

/-- comparator(a, b) <= 0 for the sortShows of src/unnamed/part_000 lines
1820-1833: priority shows order strictly first, then the selected mode
decides. -/
def sortCmpLe (mode : String) (a b : Show) : Bool :=
  if a.priority && !b.priority then true
  else if !a.priority && b.priority then false
  else if mode = "alpha" then alphaLe a b
  else soonestLe a b

/-- sortShows (src/unnamed/part_000 lines 1816-1837): a single sort whose
comparator puts priority shows first and then applies the selected mode. -/
def sortShows (shows : List Show) (mode : String) : List Show :=
  jsSort (sortCmpLe mode) shows

namespace Popup

/-- sortShows (src/popup.js lines 856-869): sorts only by the selected mode;
the comparator never consults priority. -/
def sortShows (shows : List Show) (mode : String) : List Show :=
  if mode = "alpha" then jsSort alphaLe shows else jsSort soonestLe shows

end Popup

/-! ## getCountdownInfo (src/unnamed/part_000 lines 1839-1881, src/popup.js lines 871-913; the two copies are identical) -/

/-- The record getCountdownInfo returns.  The mode none branches return no
unit fields, modelled by none. -/
structure CountdownInfo where
  mode : String
  label : String
  progress : ℤ
  days : Option ℕ := none
  hours : Option ℕ := none
  minutes : Option ℕ := none
  seconds : Option ℕ := none
deriving DecidableEq

/-- 7 * 24 * 60 * 60 * 1000 as a rational, the sevenDaysMs constant. -/
def sevenDaysMs : ℚ := 7 * 24 * 60 * 60 * 1000

/-- Math.round for the nonnegative values arising here: floor of x + 1/2. -/
def jsRound (x : ℚ) : ℤ := ⌊x + 1 / 2⌋

/-- getCountdownInfo.  The airstamp argument is the usual
Option (Option ℤ) encoding of the input string; now stands for Date.now().
For a future airstamp the remaining whole seconds are decomposed by div/mod
into days, hours, minutes, seconds, and progress is
max(5, min(100, round(100 - min(1, diffMs / sevenDaysMs) * 100))). -/
def getCountdownInfo (airstamp : Option (Option ℤ)) (now : ℤ) : CountdownInfo :=
  match airstamp with
  | none => { mode := "none", label := "No upcoming episodes", progress := 100 }
  | some none => { mode := "none", label := "Unknown date", progress := 50 }
  | some (some airTime) =>
    let diffMs : ℤ := airTime - now
    if diffMs ≤ 0 then
      { mode := "past", label := "Released", progress := 100,
        days := some 0, hours := some 0, minutes := some 0, seconds := some 0 }
    else
      let totalSeconds : ℕ := diffMs.toNat / 1000
      let days : ℕ := totalSeconds / (60 * 60 * 24)
      let hours : ℕ := (totalSeconds % (60 * 60 * 24)) / 3600
      let minutes : ℕ := (totalSeconds % 3600) / 60
      let seconds : ℕ := totalSeconds % 60
      let progress : ℤ := max 5 (min 100 (jsRound (100 - min 1 ((diffMs : ℚ) / sevenDaysMs) * 100)))
      { mode := "upcoming", label := "Time until release", progress := progress,
        days := some days, hours := some hours, minutes := some minutes,
        seconds := some seconds }

/-! ## src/jikanApi.js -/

/-- MIN_REQUEST_INTERVAL = 1000 / 3 (src/jikanApi.js line 5). -/
def MIN_REQUEST_INTERVAL : ℚ := 1000 / 3

/-- The delay logic of rateLimitedFetch (src/jikanApi.js lines 7-16) for one
call: a caller that reads lastRequestTime and finds now - lastRequestTime
below the minimum interval suspends for the difference and starts its fetch
at the computed release time; otherwise it starts immediately. -/
def dispatchTime (lastRequestTime now : ℚ) : ℚ :=
  if now - lastRequestTime < MIN_REQUEST_INTERVAL then
    now + (MIN_REQUEST_INTERVAL - (now - lastRequestTime))
  else now

/-- Dispatch time of a single rateLimitedFetch call entered at t1 when the
module variable lastRequestTime holds last0. -/
def rateLimitedDispatch1 (last0 t1 : ℚ) : ℚ :=
  dispatchTime last0 t1

/-- Dispatch time of a second rateLimitedFetch call entered at t2 ≥ t1 while
the first call (entered at t1 with lastRequestTime = last0) is still pending
or already dispatched.  lastRequestTime is written only at the first call's
dispatch (line 17, after the await), so under the single-threaded event loop
the second caller reads last0 if it enters before the first dispatch, and the
first call's dispatch time otherwise. -/
def rateLimitedDispatch2 (last0 t1 t2 : ℚ) : ℚ :=
  let d1 := rateLimitedDispatch1 last0 t1
  if t2 < d1 then dispatchTime last0 t2 else dispatchTime d1 t2

/-- The try/catch body of rateLimitedFetch (src/jikanApi.js lines 19-29):
it never rejects; a rejected fetch or a rejected response.json() lands in the
catch and yields null, as does a non-ok response. -/
def rateLimitedFetch {J : Type} (outcome : FetchOutcome J) : Option J :=
  match outcome with
  | .netFail => none
  | .resp ok _ body => if !ok then none else body

/-- One genre object of the anime-catalog payload. -/
structure JikanGenre where
  name : String

/-- The images.jpg object of the anime-catalog payload. -/
structure JikanImages where
  largeImageUrl : Option String
  imageUrl : Option String

/-- One anime object of the anime-catalog payload, restricted to the fields
fetchAiringAnime reads. -/
structure JikanAnime where
  malId : ℤ
  title : String
  titleEnglish : Option String
  genres : Option (List JikanGenre)
  images : Option JikanImages
  score : Option ℚ
  members : Option ℕ
  status : Option String
  synopsis : Option String

/-- The top-level anime-catalog payload; data may be absent. -/
structure JikanPayload where
  data : Option (List JikanAnime)

/-- Remainder of the scan for the regular expression <[^>]+> : given the
characters after the first character inside a tag, the characters after the
first closing angle bracket, if one exists. -/
def tagRest : List Char → Option (List Char)
  | [] => none
  | c :: cs => if c = '>' then some cs else tagRest cs

/-- Global replacement of <[^>]+> by the empty string, modelling
synopsis.replace(/<[^>]+>/g, "") on the character list. -/
def stripTagsAux : List Char → List Char
  | [] => []
  | c :: cs =>
    if c = '<' then
      match cs with
      | [] => [c]
      | d :: ds =>
        if d = '>' then c :: stripTagsAux (d :: ds)
        else
          match h : tagRest ds with
          | some rest => stripTagsAux rest
          | none => c :: stripTagsAux (d :: ds)
    else c :: stripTagsAux cs
termination_by l => l.length
decreasing_by
  all_goals simp
  all_goals
    (have key : ∀ (l r : List Char), tagRest l = some r → r.length < l.length := by
        intro l
        induction l with
        | nil => intro r hr; simp [tagRest] at hr
        | cons a as ih =>
          intro r hr
          by_cases ha : a = '>'
          · simp [tagRest, ha] at hr
            simp [← hr]
          · simp [tagRest, ha] at hr
            have := ih r hr
            simp
            omega
     have := key _ _ h
     omega)

/-- synopsis.replace(/<[^>]+>/g, "") as a String function. -/
def stripTags (s : String) : String :=
  ⟨stripTagsAux s.data⟩

/-- The normalized anime record fetchAiringAnime builds
(src/jikanApi.js lines 39-52). -/
structure AnimeSummary where
  id : String
  malId : ℤ
  name : String
  nameEnglish : String
  genres : List String
  image : Option String
  rating : Option ℚ
  members : ℕ
  status : Option String
  synopsis : String
  contentType : String
  airing : Bool

/-- The per-anime mapping of fetchAiringAnime (src/jikanApi.js lines 39-52):
title_english || title, genres mapped to names or [], the large jpg image
preferred over the plain one, score || null, members || 0, the synopsis
stripped of tags or "", contentType anime, airing true. -/
def mkAnimeSummary (anime : JikanAnime) : AnimeSummary :=
  { id := "mal-" ++ toString anime.malId
    malId := anime.malId
    name := anime.title
    nameEnglish := anime.titleEnglish.getD anime.title
    genres := (anime.genres.getD []).map JikanGenre.name
    image := anime.images.bind (fun im => im.largeImageUrl.orElse (fun _ => im.imageUrl))
    rating := anime.score
    members := anime.members.getD 0
    status := anime.status
    synopsis := match anime.synopsis with
      | some s => stripTags s
      | none => ""
    contentType := "anime"
    airing := true }

/-- fetchAiringAnime (src/jikanApi.js lines 36-53): a null result from
rateLimitedFetch or an absent data field yields []; otherwise the data array
is mapped.  The function cannot reject: every failure was already converted
to null by rateLimitedFetch. -/
def fetchAiringAnime (outcome : FetchOutcome JikanPayload) : List AnimeSummary :=
  match rateLimitedFetch outcome with
  | none => []
  | some payload =>
    match payload.data with
    | none => []
    | some animes => animes.map mkAnimeSummary

/-! ## Theorems -/

/-- Claim C7: isFetchStale(lastFetchedAt, now) is true exactly when
lastFetchedAt is absent, unparsable, or more than 24 hours before now; at the
boundary, a timestamp 24h + 1ms old is stale and one 24h - 1ms old is not. -/
theorem isFetchStale_spec (lastFetchedAtIso : Option (Option ℤ)) (now : ℤ) :
    (isFetchStale lastFetchedAtIso now = true ↔
      lastFetchedAtIso = none ∨ lastFetchedAtIso = some none ∨
        ∃ last, lastFetchedAtIso = some (some last) ∧ now - last > ONE_DAY_MS) ∧
    isFetchStale (some (some (now - ONE_DAY_MS - 1))) now = true ∧
    isFetchStale (some (some (now - ONE_DAY_MS + 1))) now = false := by
  refine ⟨?_, ?_, ?_⟩
  · match lastFetchedAtIso with
    | none => simp [isFetchStale]
    | some none => simp [isFetchStale]
    | some (some last) => simp [isFetchStale]
  · simp [isFetchStale]
    omega
  · simp [isFetchStale]
    omega

/-- Claim C4: refreshAllShows leaves the user-owned fields watched,
watchedAt, priority and watchLink of every show exactly as they were in the
corresponding input show, for every fetch oracle (so whether or not each
re-fetch succeeds) and every staleness state. -/
theorem refreshAllShows_preserves_user_fields
    (fetchEps : ℤ → Except Unit (List Episode)) (now : ℤ) (shows : List Show) :
    (refreshAllShows fetchEps now shows).map
        (fun s => (s.watched, s.watchedAt, s.priority, s.watchLink)) =
      shows.map (fun s => (s.watched, s.watchedAt, s.priority, s.watchLink)) := by
  induction shows with
  | nil => rfl
  | cons s rest ih =>
    simp only [refreshAllShows, List.map_cons, ih]
    congr 1
    unfold refreshShow
    split
    · rfl
    · split <;> rfl

/-- Claim C5: refreshAllShows yields exactly one output record per input
record, in order, and a show whose re-fetch fails is kept in exactly its
previous state while the rest of the collection is still produced. -/
theorem refreshAllShows_error_retention
    (fetchEps : ℤ → Except Unit (List Episode)) (now : ℤ) (shows : List Show) :
    (refreshAllShows fetchEps now shows).length = shows.length ∧
    ∀ (i : ℕ) (hi : i < shows.length), fetchEps (shows[i].id) = Except.error () →
      (refreshAllShows fetchEps now shows)[i]? = some shows[i] := by
  constructor
  · induction shows with
    | nil => rfl
    | cons s rest ih => simp [refreshAllShows, ih]
  · induction shows with
    | nil => intro i hi; simp at hi
    | cons s rest ih =>
      intro i hi herr
      match i with
      | 0 =>
        simp only [refreshAllShows, List.getElem?_cons_zero, Option.some.injEq]
        simp only [List.getElem_cons_zero] at herr ⊢
        unfold refreshShow
        split
        · rfl
        · rw [herr]
      | i + 1 =>
        simp only [refreshAllShows, List.getElem?_cons_succ, List.getElem_cons_succ,
          List.length_cons] at *
        exact ih i (by simp only [List.length_cons] at hi; omega) herr

/-- Claim C8: merge-mode import yields the existing collection unchanged and
in order, followed by exactly the imported shows whose id does not occur
among the existing ids; in the two-into-one scenario with one duplicate id
the result has exactly 2 shows. -/
theorem processImport_merge_spec (existingShows pendingShows : List Show) :
    (processImport true existingShows pendingShows).take existingShows.length =
      existingShows ∧
    (processImport true existingShows pendingShows).drop existingShows.length =
      pendingShows.filter (fun s => !((existingShows.map Show.id).contains s.id)) ∧
    ∀ a b c : Show, a.id = c.id → b.id ≠ c.id →
      (processImport true [a] [c, b]).length = 2 := by
  refine ⟨?_, ?_, ?_⟩
  · simp [processImport, List.take_left]
  · simp [processImport, List.drop_left]
  · intro a b c hac hbc
    simp [processImport, List.filter, List.contains, hac, hbc]

/-- Claim C6 counterexample: the TV-catalog episode fetch propagates a
network failure and a JSON parse failure as exceptions instead of returning
an empty sequence, contradicting the claim that no adapter operation raises. -/
theorem fetchEpisodes_raises :
    fetchEpisodes FetchOutcome.netFail = Except.error () ∧
    fetchEpisodes (FetchOutcome.resp true 200 none) = Except.error () :=
  ⟨rfl, rfl⟩

/-- Claim C6 (amended): a BadStatus response yields an empty result from
every adapter operation; the anime-catalog path (rateLimitedFetch and
fetchAiringAnime) converts NetworkFailure, BadStatus and ParseFailure into
null or an empty list and never raises; but the TV-catalog operations
propagate NetworkFailure and ParseFailure. -/
theorem adapters_failure_policy :
    (∀ (query : String) (status : ℕ) (body : Option (List SearchItem)),
        searchShows query (FetchOutcome.resp false status body) = Except.ok []) ∧
    (∀ (status : ℕ) (body : Option (List Episode)),
        fetchEpisodes (FetchOutcome.resp false status body) = Except.ok []) ∧
    fetchEpisodes FetchOutcome.netFail = Except.error () ∧
    (∀ status : ℕ, fetchEpisodes (FetchOutcome.resp true status none) = Except.error ()) ∧
    (∀ query : String, searchShows query FetchOutcome.netFail =
        if query.trim = "" then Except.ok [] else Except.error ()) ∧
    (∀ (query : String) (status : ℕ),
        searchShows query (FetchOutcome.resp true status none) =
          if query.trim = "" then Except.ok [] else Except.error ()) ∧
    (∀ (J : Type) (status : ℕ) (body : Option J),
        rateLimitedFetch (FetchOutcome.netFail : FetchOutcome J) = none ∧
        rateLimitedFetch (FetchOutcome.resp false status body) = none ∧
        rateLimitedFetch (FetchOutcome.resp true status (none : Option J)) = none) ∧
    (∀ (status : ℕ) (body : Option JikanPayload),
        fetchAiringAnime FetchOutcome.netFail = [] ∧
        fetchAiringAnime (FetchOutcome.resp false status body) = [] ∧
        fetchAiringAnime (FetchOutcome.resp true status none) = []) := by
  refine ⟨?_, ?_, rfl, fun _ => rfl, ?_, ?_, ?_, ?_⟩
  · intro query status body
    unfold searchShows
    split <;> rfl
  · intro status body
    rfl
  · intro query
    unfold searchShows
    split <;> rfl
  · intro query status
    unfold searchShows
    split <;> rfl
  · intro J status body
    exact ⟨rfl, rfl, rfl⟩
  · intro status body
    exact ⟨rfl, rfl, rfl⟩

/-- Witness for claim C5 at a concrete collection whose only show's re-fetch
fails: the output retains the show unchanged. -/
theorem refreshAllShows_error_retention_witness :
    (refreshAllShows (fun _ => Except.error ()) 0 [{ id := 5 }])[0]? =
      some { id := 5 } :=
  (refreshAllShows_error_retention (fun _ => Except.error ()) 0 [{ id := 5 }]).2
    0 (by decide) rfl

/-- Witness for claim C8: importing two shows, one with an already-present
id, into a one-show collection in merge mode yields exactly 2 shows. -/
theorem processImport_merge_witness :
    (processImport true [{ id := 1 }]
        [{ id := 1, name := "dup" }, { id := 2 }]).length = 2 :=
  (processImport_merge_spec [] []).2.2
    { id := 1 } { id := 2 } { id := 1, name := "dup" } rfl (by decide)

/-- Claim C2: for a parsable airstamp strictly after now, getCountdownInfo
reports mode upcoming and integer unit fields that decompose the remaining
whole seconds exactly, with hours, minutes and seconds in range. -/
theorem getCountdownInfo_upcoming_decomposition (a n : ℤ) (hfut : n < a) :
    (getCountdownInfo (some (some a)) n).mode = "upcoming" ∧
    ∃ d h m s : ℕ,
      (getCountdownInfo (some (some a)) n).days = some d ∧
      (getCountdownInfo (some (some a)) n).hours = some h ∧
      (getCountdownInfo (some (some a)) n).minutes = some m ∧
      (getCountdownInfo (some (some a)) n).seconds = some s ∧
      d * 86400 + h * 3600 + m * 60 + s = (a - n).toNat / 1000 ∧
      h < 24 ∧ m < 60 ∧ s < 60 := by
  have hpos : ¬(a - n ≤ 0) := by omega
  refine ⟨?_, (a - n).toNat / 1000 / (60 * 60 * 24),
    (a - n).toNat / 1000 % (60 * 60 * 24) / 3600,
    (a - n).toNat / 1000 % 3600 / 60,
    (a - n).toNat / 1000 % 60, ?_, ?_, ?_, ?_, ?_, ?_, ?_, ?_⟩ <;>
    first
      | (simp only [getCountdownInfo, if_neg hpos])
      | omega

/-- Witness for claim C2 at airstamp 1000000 and now 0. -/
theorem getCountdownInfo_upcoming_decomposition_witness :
    (getCountdownInfo (some (some (1000000 : ℤ))) 0).mode = "upcoming" ∧
    ∃ d h m s : ℕ,
      (getCountdownInfo (some (some (1000000 : ℤ))) 0).days = some d ∧
      (getCountdownInfo (some (some (1000000 : ℤ))) 0).hours = some h ∧
      (getCountdownInfo (some (some (1000000 : ℤ))) 0).minutes = some m ∧
      (getCountdownInfo (some (some (1000000 : ℤ))) 0).seconds = some s ∧
      d * 86400 + h * 3600 + m * 60 + s = ((1000000 : ℤ) - 0).toNat / 1000 ∧
      h < 24 ∧ m < 60 ∧ s < 60 :=
  getCountdownInfo_upcoming_decomposition 1000000 0 (by decide)

/-- Claim C10 counterexample: two overlapping rateLimitedFetch calls (the
second enters at 150, before the first call's release time 1000/3, which is
also when lastRequestTime is next written) both read lastRequestTime = 0,
compute the same release time, and dispatch simultaneously: their spacing is
0, below MIN_REQUEST_INTERVAL. -/
theorem rateLimitedFetch_concurrent_collision :
    rateLimitedDispatch1 0 100 = 1000 / 3 ∧
    rateLimitedDispatch2 0 100 150 = 1000 / 3 ∧
    (150 : ℚ) < rateLimitedDispatch1 0 100 ∧
    rateLimitedDispatch2 0 100 150 - rateLimitedDispatch1 0 100 <
      MIN_REQUEST_INTERVAL := by
  unfold rateLimitedDispatch2 rateLimitedDispatch1 dispatchTime MIN_REQUEST_INTERVAL
  norm_num

/-- Claim C10 (amended): for sequential use - the second call enters at or
after the first call's dispatch - the dispatches are at least
MIN_REQUEST_INTERVAL apart. -/
theorem rateLimitedFetch_sequential_spacing (last0 t1 t2 : ℚ)
    (hseq : rateLimitedDispatch1 last0 t1 ≤ t2) :
    rateLimitedDispatch1 last0 t1 + MIN_REQUEST_INTERVAL ≤
      rateLimitedDispatch2 last0 t1 t2 := by
  simp only [rateLimitedDispatch2]
  rw [if_neg (not_lt.mpr hseq)]
  unfold dispatchTime
  split
  · linarith
  · rename_i hcond
    rw [not_lt] at hcond
    linarith

/-- Release-time computation of a lone call entered at 400 with
lastRequestTime 0: it dispatches immediately. -/
theorem rateLimitedDispatch1_at_400 : rateLimitedDispatch1 0 400 = 400 := by
  unfold rateLimitedDispatch1 dispatchTime MIN_REQUEST_INTERVAL
  norm_num

/-- Witness for the amended claim C10 at last0 = 0, t1 = 400, t2 = 800. -/
theorem rateLimitedFetch_sequential_spacing_witness :
    rateLimitedDispatch1 0 400 + MIN_REQUEST_INTERVAL ≤
      rateLimitedDispatch2 0 400 800 :=
  rateLimitedFetch_sequential_spacing 0 400 800
    (by rw [rateLimitedDispatch1_at_400]; norm_num)

/-- The progress field of getCountdownInfo in the upcoming branch, in closed
form. -/
theorem getCountdownInfo_progress_closed (a n : ℤ) (hpos : ¬(a - n ≤ 0)) :
    (getCountdownInfo (some (some a)) n).progress =
      max 5 (min 100 (jsRound (100 - min 1 (((a - n : ℤ) : ℚ) / sevenDaysMs) * 100))) := by
  simp only [getCountdownInfo, if_neg hpos]

/-- The clamp max 5 (min 100 _) keeps every value within [5, 100]. -/
theorem jsProgress_bounds (z : ℤ) : 5 ≤ max 5 (min 100 z) ∧ max 5 (min 100 z) ≤ 100 :=
  ⟨le_max_left _ _, max_le (by norm_num) (min_le_left _ _)⟩

/-- The clamped rounded progress value is antitone in the remaining time. -/
theorem jsProgress_mono (d1 d2 : ℤ) (h12 : d1 ≤ d2) :
    max 5 (min 100 (jsRound (100 - min 1 ((d2 : ℚ) / sevenDaysMs) * 100))) ≤
      max 5 (min 100 (jsRound (100 - min 1 ((d1 : ℚ) / sevenDaysMs) * 100))) := by
  have hSD : (0 : ℚ) < sevenDaysMs := by norm_num [sevenDaysMs]
  have hcast : (d1 : ℚ) ≤ (d2 : ℚ) := by exact_mod_cast h12
  have hdiv : (d1 : ℚ) / sevenDaysMs ≤ (d2 : ℚ) / sevenDaysMs :=
    (div_le_div_iff_of_pos_right hSD).mpr hcast
  have hmin : min 1 ((d1 : ℚ) / sevenDaysMs) ≤ min 1 ((d2 : ℚ) / sevenDaysMs) :=
    min_le_min le_rfl hdiv
  have hmul : min 1 ((d1 : ℚ) / sevenDaysMs) * 100 ≤ min 1 ((d2 : ℚ) / sevenDaysMs) * 100 :=
    mul_le_mul_of_nonneg_right hmin (by norm_num)
  have hfloor : jsRound (100 - min 1 ((d2 : ℚ) / sevenDaysMs) * 100) ≤
      jsRound (100 - min 1 ((d1 : ℚ) / sevenDaysMs) * 100) := by
    unfold jsRound
    exact Int.floor_le_floor (by linarith)
  exact max_le_max le_rfl (min_le_min le_rfl hfloor)

/-- Claim C9: for future time differences 0 < d1 ≤ d2, the progress at the
larger difference is at most the progress at the smaller one, and progress
stays within [5, 100]. -/
theorem getCountdownInfo_progress_antitone (n d1 d2 : ℤ) (h1 : 0 < d1) (h12 : d1 ≤ d2) :
    (getCountdownInfo (some (some (n + d2))) n).progress ≤
      (getCountdownInfo (some (some (n + d1))) n).progress ∧
    5 ≤ (getCountdownInfo (some (some (n + d2))) n).progress ∧
    (getCountdownInfo (some (some (n + d2))) n).progress ≤ 100 := by
  have hp1 : ¬(n + d1 - n ≤ 0) := by omega
  have hp2 : ¬(n + d2 - n ≤ 0) := by omega
  have e1 : n + d1 - n = d1 := by ring
  have e2 : n + d2 - n = d2 := by ring
  rw [getCountdownInfo_progress_closed _ _ hp1, getCountdownInfo_progress_closed _ _ hp2,
    e1, e2]
  exact ⟨jsProgress_mono d1 d2 h12, (jsProgress_bounds _).1, (jsProgress_bounds _).2⟩

/-- Witness for claim C9 at now 0, differences 1 and 2. -/
theorem getCountdownInfo_progress_antitone_witness :
    (getCountdownInfo (some (some ((0 : ℤ) + 2))) 0).progress ≤
      (getCountdownInfo (some (some ((0 : ℤ) + 1))) 0).progress ∧
    5 ≤ (getCountdownInfo (some (some ((0 : ℤ) + 2))) 0).progress ∧
    (getCountdownInfo (some (some ((0 : ℤ) + 2))) 0).progress ≤ 100 :=
  getCountdownInfo_progress_antitone 0 1 2 (by decide) (by decide)

/-- Invariant of the computeNextEpisode loop: with a current best candidate
that is in the future, the final result is none exactly when there was no
candidate and no parsable future episode remains, and a returned candidate is
in the future, originates from the initial candidate or from a scanned
episode, and is minimal against both the initial candidate and every
parsable future episode scanned. -/
theorem computeNextEpisodeAux_spec (now : ℤ) :
    ∀ (eps : List Episode) (next : Option NextEpisode),
      (∀ m, next = some m → now < m.airstamp) →
      ((computeNextEpisodeAux now eps next = none ↔
          next = none ∧ ∀ ep ∈ eps, ∀ t, ep.airstamp = some (some t) → t ≤ now) ∧
        ∀ r, computeNextEpisodeAux now eps next = some r →
          now < r.airstamp ∧
          (next = some r ∨ ∃ ep ∈ eps, ep.airstamp = some (some r.airstamp) ∧
            r.season = ep.season ∧ r.number = ep.number) ∧
          (∀ m, next = some m → r.airstamp ≤ m.airstamp) ∧
          (∀ ep ∈ eps, ∀ t, ep.airstamp = some (some t) → now < t → r.airstamp ≤ t)) := by
  intro eps
  induction eps with
  | nil =>
    intro next hnext
    refine ⟨by simp [computeNextEpisodeAux], ?_⟩
    intro r hr
    simp only [computeNextEpisodeAux] at hr
    refine ⟨hnext r hr, Or.inl hr, fun m hm => ?_, by simp⟩
    rw [hr] at hm
    injection hm with h
    rw [h]
  | cons ep rest ih =>
    intro next hnext
    rcases hair : ep.airstamp with _ | (_ | t)
    · have hred : computeNextEpisodeAux now (ep :: rest) next =
          computeNextEpisodeAux now rest next := by
        simp [computeNextEpisodeAux, hair]
      rw [hred]
      obtain ⟨ih1, ih2⟩ := ih next hnext
      constructor
      · rw [ih1]
        constructor
        · rintro ⟨h1, h2⟩
          refine ⟨h1, ?_⟩
          intro e he t' ht'
          rcases List.mem_cons.mp he with he0 | he'
          · subst he0
            rw [hair] at ht'; simp at ht'
          · exact h2 e he' t' ht'
        · rintro ⟨h1, h2⟩
          exact ⟨h1, fun e he t' ht' => h2 e (List.mem_cons_of_mem _ he) t' ht'⟩
      · intro r hr
        obtain ⟨g1, g2, g3, g4⟩ := ih2 r hr
        refine ⟨g1, ?_, g3, ?_⟩
        · rcases g2 with h | ⟨e, he, hh⟩
          · exact Or.inl h
          · exact Or.inr ⟨e, List.mem_cons_of_mem _ he, hh⟩
        · intro e he t' ht' hlt
          rcases List.mem_cons.mp he with he0 | he'
          · subst he0
            rw [hair] at ht'; simp at ht'
          · exact g4 e he' t' ht' hlt
    · have hred : computeNextEpisodeAux now (ep :: rest) next =
          computeNextEpisodeAux now rest next := by
        simp [computeNextEpisodeAux, hair]
      rw [hred]
      obtain ⟨ih1, ih2⟩ := ih next hnext
      constructor
      · rw [ih1]
        constructor
        · rintro ⟨h1, h2⟩
          refine ⟨h1, ?_⟩
          intro e he t' ht'
          rcases List.mem_cons.mp he with he0 | he'
          · subst he0
            rw [hair] at ht'; simp at ht'
          · exact h2 e he' t' ht'
        · rintro ⟨h1, h2⟩
          exact ⟨h1, fun e he t' ht' => h2 e (List.mem_cons_of_mem _ he) t' ht'⟩
      · intro r hr
        obtain ⟨g1, g2, g3, g4⟩ := ih2 r hr
        refine ⟨g1, ?_, g3, ?_⟩
        · rcases g2 with h | ⟨e, he, hh⟩
          · exact Or.inl h
          · exact Or.inr ⟨e, List.mem_cons_of_mem _ he, hh⟩
        · intro e he t' ht' hlt
          rcases List.mem_cons.mp he with he0 | he'
          · subst he0
            rw [hair] at ht'; simp at ht'
          · exact g4 e he' t' ht' hlt
    · by_cases hc : (decide (t > now) && next.all fun m => decide (t < m.airstamp)) = true
      · have hred : computeNextEpisodeAux now (ep :: rest) next =
            computeNextEpisodeAux now rest (some ⟨ep.season, ep.number, t⟩) := by
          simp [computeNextEpisodeAux, hair, hc]
        have hand := hc
        rw [Bool.and_eq_true] at hand
        have hnowt : now < t := by
          simpa using hand.1
        have hbeats : ∀ m, next = some m → t < m.airstamp := by
          intro m hm
          have h2 := hand.2
          rw [hm] at h2
          simpa using h2
        have hnext' : ∀ m, some (⟨ep.season, ep.number, t⟩ : NextEpisode) = some m →
            now < m.airstamp := by
          intro m hm
          injection hm with h
          rw [← h]
          exact hnowt
        obtain ⟨ih1, ih2⟩ := ih (some ⟨ep.season, ep.number, t⟩) hnext'
        rw [hred]
        constructor
        · rw [ih1]
          constructor
          · rintro ⟨h1, _⟩
            simp at h1
          · rintro ⟨_, h2⟩
            have := h2 ep (List.mem_cons_self ep rest) t hair
            omega
        · intro r hr
          obtain ⟨g1, g2, g3, g4⟩ := ih2 r hr
          refine ⟨g1, ?_, ?_, ?_⟩
          · rcases g2 with h | ⟨e, he, hh⟩
            · injection h with h
              right
              refine ⟨ep, List.mem_cons_self ep rest, ?_⟩
              rw [← h]
              exact ⟨hair, rfl, rfl⟩
            · exact Or.inr ⟨e, List.mem_cons_of_mem _ he, hh⟩
          · intro m hm
            have h3 : r.airstamp ≤ t := g3 ⟨ep.season, ep.number, t⟩ rfl
            have h4 := hbeats m hm
            omega
          · intro e he t' ht' hlt
            rcases List.mem_cons.mp he with he0 | he'
            · subst he0
              rw [hair] at ht'
              injection ht' with h'
              injection h' with h''
              have h3 : r.airstamp ≤ t := g3 ⟨e.season, e.number, t⟩ rfl
              omega
            · exact g4 e he' t' ht' hlt
      · have hcf : (decide (t > now) && next.all fun m => decide (t < m.airstamp)) = false := by
          rcases Bool.eq_false_or_eq_true
              (decide (t > now) && next.all fun m => decide (t < m.airstamp)) with h | h
          · exact absurd h hc
          · exact h
        have hred : computeNextEpisodeAux now (ep :: rest) next =
            computeNextEpisodeAux now rest next := by
          simp [computeNextEpisodeAux, hair, hcf]
        have hfail : ¬(now < t) ∨ ∃ m, next = some m ∧ m.airstamp ≤ t := by
          by_cases hnt : now < t
          · right
            cases hnx : next with
            | none =>
              exfalso
              apply hc
              rw [hnx]
              simp [hnt]
            | some m =>
              refine ⟨m, rfl, ?_⟩
              rw [hnx] at hcf
              simp [hnt] at hcf
              omega
          · left
            exact hnt
        rw [hred]
        obtain ⟨ih1, ih2⟩ := ih next hnext
        constructor
        · rw [ih1]
          constructor
          · rintro ⟨h1, h2⟩
            refine ⟨h1, ?_⟩
            intro e he t' ht'
            rcases List.mem_cons.mp he with he0 | he'
            · subst he0
              rw [hair] at ht'
              injection ht' with h'
              injection h' with h''
              rcases hfail with hf | ⟨m, hm, _⟩
              · omega
              · rw [h1] at hm; cases hm
            · exact h2 e he' t' ht'
          · rintro ⟨h1, h2⟩
            exact ⟨h1, fun e he t' ht' => h2 e (List.mem_cons_of_mem _ he) t' ht'⟩
        · intro r hr
          obtain ⟨g1, g2, g3, g4⟩ := ih2 r hr
          refine ⟨g1, ?_, g3, ?_⟩
          · rcases g2 with h | ⟨e, he, hh⟩
            · exact Or.inl h
            · exact Or.inr ⟨e, List.mem_cons_of_mem _ he, hh⟩
          · intro e he t' ht' hlt
            rcases List.mem_cons.mp he with he0 | he'
            · subst he0
              rw [hair] at ht'
              injection ht' with h'
              injection h' with h''
              rcases hfail with hf | ⟨m, hm, hmt⟩
              · omega
              · have := g3 m hm
                omega
            · exact g4 e he' t' ht' hlt

/-- Claim C3: computeNextEpisode returns none exactly when no episode has a
parsable airstamp strictly after now (in particular on an empty list), and a
returned episode is a projection of an input episode whose airstamp is
strictly in the future and minimal among all parsable future airstamps;
episodes with an absent or unparsable airstamp are ignored. -/
theorem computeNextEpisode_spec (episodes : List Episode) (now : ℤ) :
    (computeNextEpisode episodes now = none ↔
      ∀ ep ∈ episodes, ∀ t, ep.airstamp = some (some t) → t ≤ now) ∧
    ∀ r, computeNextEpisode episodes now = some r →
      now < r.airstamp ∧
      (∃ ep ∈ episodes, ep.airstamp = some (some r.airstamp) ∧
        r.season = ep.season ∧ r.number = ep.number) ∧
      ∀ ep ∈ episodes, ∀ t, ep.airstamp = some (some t) → now < t → r.airstamp ≤ t := by
  obtain ⟨h1, h2⟩ := computeNextEpisodeAux_spec now episodes none (by intro m hm; cases hm)
  constructor
  · rw [computeNextEpisode, h1]
    simp
  · intro r hr
    rw [computeNextEpisode] at hr
    obtain ⟨g1, g2, g3, g4⟩ := h2 r hr
    refine ⟨g1, ?_, g4⟩
    rcases g2 with h | h
    · cases h
    · exact h

/-- Witness for claim C3: on a list with a past episode, two future episodes
and two episodes without a parsable airstamp, the minimal future episode
(season 1, number 3, airstamp 150) is selected at now = 100. -/
theorem computeNextEpisode_spec_witness :
    (100 : ℤ) < (⟨1, 3, 150⟩ : NextEpisode).airstamp ∧
    (∃ ep ∈ [(⟨1, 1, some (some 50)⟩ : Episode), ⟨1, 2, some (some 200)⟩,
        ⟨1, 3, some (some 150)⟩, ⟨2, 1, some none⟩, ⟨2, 2, none⟩],
      ep.airstamp = some (some (⟨1, 3, 150⟩ : NextEpisode).airstamp) ∧
      (⟨1, 3, 150⟩ : NextEpisode).season = ep.season ∧
      (⟨1, 3, 150⟩ : NextEpisode).number = ep.number) ∧
    ∀ ep ∈ [(⟨1, 1, some (some 50)⟩ : Episode), ⟨1, 2, some (some 200)⟩,
        ⟨1, 3, some (some 150)⟩, ⟨2, 1, some none⟩, ⟨2, 2, none⟩],
      ∀ t, ep.airstamp = some (some t) → 100 < t →
        (⟨1, 3, 150⟩ : NextEpisode).airstamp ≤ t :=
  (computeNextEpisode_spec
      [⟨1, 1, some (some 50)⟩, ⟨1, 2, some (some 200)⟩, ⟨1, 3, some (some 150)⟩,
        ⟨2, 1, some none⟩, ⟨2, 2, none⟩] 100).2
    ⟨1, 3, 150⟩ (by decide)

/-- charListLe on cons cells unfolds to a strict-or-tie step. -/
theorem charListLe_cons_iff (a b : Char) (as bs : List Char) :
    charListLe (a :: as) (b :: bs) = true ↔
      a.toNat < b.toNat ∨ (a.toNat = b.toNat ∧ charListLe as bs = true) := by
  simp only [charListLe]
  by_cases h1 : a.toNat < b.toNat
  · simp [h1]
  · by_cases h2 : b.toNat < a.toNat
    · simp [h1, h2]
      omega
    · have h3 : a.toNat = b.toNat := by omega
      simp [h1, h2, h3]

/-- charListLe is total. -/
theorem charListLe_total : ∀ l1 l2 : List Char,
    charListLe l1 l2 = true ∨ charListLe l2 l1 = true := by
  intro l1
  induction l1 with
  | nil => intro l2; left; simp [charListLe]
  | cons a as ih =>
    intro l2
    cases l2 with
    | nil => right; simp [charListLe]
    | cons b bs =>
      rw [charListLe_cons_iff, charListLe_cons_iff]
      by_cases hab : a.toNat < b.toNat
      · left; exact Or.inl hab
      · by_cases hba : b.toNat < a.toNat
        · right; exact Or.inl hba
        · have heq : a.toNat = b.toNat := by omega
          rcases ih bs with h | h
          · left; exact Or.inr ⟨heq, h⟩
          · right; exact Or.inr ⟨heq.symm, h⟩

/-- charListLe is transitive. -/
theorem charListLe_trans : ∀ l1 l2 l3 : List Char,
    charListLe l1 l2 = true → charListLe l2 l3 = true → charListLe l1 l3 = true := by
  intro l1
  induction l1 with
  | nil => intro l2 l3 _ _; simp [charListLe]
  | cons a as ih =>
    intro l2 l3 h12 h23
    cases l2 with
    | nil => simp [charListLe] at h12
    | cons b bs =>
      cases l3 with
      | nil => simp [charListLe] at h23
      | cons c cs =>
        rw [charListLe_cons_iff] at h12 h23 ⊢
        rcases h12 with h12 | ⟨h12e, h12r⟩
        · rcases h23 with h23 | ⟨h23e, _⟩
          · exact Or.inl (by omega)
          · exact Or.inl (by omega)
        · rcases h23 with h23 | ⟨h23e, h23r⟩
          · exact Or.inl (by omega)
          · exact Or.inr ⟨by omega, ih bs cs h12r h23r⟩

/-- soonestLe is total. -/
theorem soonestLe_total (a b : Show) : soonestLe a b = true ∨ soonestLe b a = true := by
  unfold soonestLe
  cases airKey a <;> cases airKey b <;> simp <;> omega

/-- soonestLe is transitive. -/
theorem soonestLe_trans (a b c : Show) :
    soonestLe a b = true → soonestLe b c = true → soonestLe a c = true := by
  unfold soonestLe
  cases airKey a <;> cases airKey b <;> cases airKey c <;> simp <;> omega

/-- alphaLe is total. -/
theorem alphaLe_total (a b : Show) : alphaLe a b = true ∨ alphaLe b a = true :=
  charListLe_total a.name.data b.name.data

/-- alphaLe is transitive. -/
theorem alphaLe_trans (a b c : Show) :
    alphaLe a b = true → alphaLe b c = true → alphaLe a c = true :=
  charListLe_trans a.name.data b.name.data c.name.data

/-- The part_000 sortShows comparator is total. -/
theorem sortCmpLe_total (mode : String) (a b : Show) :
    sortCmpLe mode a b = true ∨ sortCmpLe mode b a = true := by
  unfold sortCmpLe
  cases hpa : a.priority <;> cases hpb : b.priority <;> simp
  · by_cases hm : mode = "alpha"
    · simp [hm]; exact alphaLe_total a b
    · simp [hm]; exact soonestLe_total a b
  · by_cases hm : mode = "alpha"
    · simp [hm]; exact alphaLe_total a b
    · simp [hm]; exact soonestLe_total a b

/-- The part_000 sortShows comparator is transitive. -/
theorem sortCmpLe_trans (mode : String) (a b c : Show) :
    sortCmpLe mode a b = true → sortCmpLe mode b c = true → sortCmpLe mode a c = true := by
  unfold sortCmpLe
  cases hpa : a.priority <;> cases hpb : b.priority <;> cases hpc : c.priority <;> simp
  all_goals by_cases hm : mode = "alpha" <;> simp [hm]
  · exact alphaLe_trans a b c
  · exact soonestLe_trans a b c
  · exact alphaLe_trans a b c
  · exact soonestLe_trans a b c

/-- Each element of a stable insertion is the inserted one or was present. -/
theorem insertStable_mem (le : α → α → Bool) (x : α) :
    ∀ (l : List α) (z : α), z ∈ insertStable le x l → z = x ∨ z ∈ l := by
  intro l
  induction l with
  | nil =>
    intro z hz
    simp [insertStable] at hz
    exact Or.inl hz
  | cons y ys ih =>
    intro z hz
    unfold insertStable at hz
    split at hz
    · rcases List.mem_cons.mp hz with h | h
      · exact Or.inl h
      · exact Or.inr h
    · rcases List.mem_cons.mp hz with h | h
      · exact Or.inr (by simp [h])
      · rcases ih z h with h' | h'
        · exact Or.inl h'
        · exact Or.inr (by simp [h'])

/-- Stable insertion preserves sortedness for a total transitive le. -/
theorem insertStable_pairwise (le : α → α → Bool)
    (htrans : ∀ a b c, le a b = true → le b c = true → le a c = true)
    (htotal : ∀ a b, le a b = true ∨ le b a = true) (x : α) :
    ∀ l : List α, l.Pairwise (fun a b => le a b = true) →
      (insertStable le x l).Pairwise (fun a b => le a b = true) := by
  intro l
  induction l with
  | nil => intro _; simp [insertStable]
  | cons y ys ih =>
    intro hp
    rcases List.pairwise_cons.mp hp with ⟨hy, hys⟩
    unfold insertStable
    split
    · rename_i hxy
      refine List.pairwise_cons.mpr ⟨?_, hp⟩
      intro z hz
      rcases List.mem_cons.mp hz with h | h
      · rw [h]; exact hxy
      · exact htrans x y z hxy (hy z h)
    · rename_i hxy
      have hyx : le y x = true := by
        rcases htotal x y with h | h
        · exact absurd h hxy
        · exact h
      refine List.pairwise_cons.mpr ⟨?_, ih hys⟩
      intro z hz
      rcases insertStable_mem le x ys z hz with h | h
      · rw [h]; exact hyx
      · exact hy z h
/-- jsSort sorts with respect to a total transitive le. -/
theorem jsSort_pairwise (le : α → α → Bool)
    (htrans : ∀ a b c, le a b = true → le b c = true → le a c = true)
    (htotal : ∀ a b, le a b = true ∨ le b a = true) :
    ∀ l : List α, (jsSort le l).Pairwise (fun a b => le a b = true) := by
  intro l
  induction l with
  | nil => simp [jsSort]
  | cons x xs ih => exact insertStable_pairwise le htrans htotal x _ ih

/-- Claim C1 (amended: for the sortShows of src/unnamed/part_000): in the
sorted output, every show with priority true is placed strictly before every
show with priority false or absent, for every mode. -/
theorem sortShows_priority_first (shows : List Show) (mode : String)
    (i j : Fin (sortShows shows mode).length)
    (hi : ((sortShows shows mode).get i).priority = true)
    (hj : ((sortShows shows mode).get j).priority = false) :
    (i : ℕ) < (j : ℕ) := by
  have hp : (sortShows shows mode).Pairwise (fun a b => sortCmpLe mode a b = true) :=
    jsSort_pairwise (sortCmpLe mode) (sortCmpLe_trans mode) (sortCmpLe_total mode) shows
  rcases lt_trichotomy (i : ℕ) (j : ℕ) with h | h | h
  · exact h
  · exfalso
    have hij : i = j := Fin.ext h
    rw [hij, hj] at hi
    exact Bool.false_ne_true hi
  · exfalso
    have hle := List.pairwise_iff_get.mp hp j i h
    simp only [List.get_eq_getElem] at hi hj
    simp [sortCmpLe, hi, hj] at hle

/-- Witness for the amended claim C1: in a two-show collection whose second
show is pinned, sortShows places the pinned show at index 0. -/
theorem sortShows_priority_first_witness : (0 : ℕ) < (1 : ℕ) :=
  sortShows_priority_first
    [{ id := 1, nextEpisode := some ⟨1, 1, 100⟩ },
      { id := 2, priority := true, nextEpisode := some ⟨1, 1, 200⟩ }] "soonest"
    ⟨0, by decide⟩ ⟨1, by decide⟩ (by decide) (by decide)

/-- Claim C1 counterexample: the sortShows of src/popup.js sorts only by the
mode key, so with mode soonest a non-pinned show with the earlier airstamp
precedes a pinned show: the output priorities are [false, true]. -/
theorem popupSortShows_priority_not_first :
    (Popup.sortShows
        [{ id := 1, nextEpisode := some ⟨1, 1, 100⟩ },
          { id := 2, priority := true, nextEpisode := some ⟨1, 1, 200⟩ }] "soonest").map
      Show.priority = [false, true] := by decide
